import Mathlib

/-!
Verification of the identity-resolution and aggregation engine of the
ffhs-stats-project repository.

The engine lives in SQL views created by `scripts/create_analysis_views.py`:
`v_stable_municipality_mapping` resolves each municipality that appears in
voting data to a canonical analysis identity by a bounded forward traversal
of the `municipal_changes` mutation graph that stops at true split origins,
and `v_voting_results_analysis` aggregates `voting_results` rows along that
mapping.  `verify_perfect_matching` in the same script checks conservation of
the yes/no totals.  `scripts/import_municipal_changes.py` ingests and
classifies the mutation records.

The embedding below models the SQLite tables as lists of records and the
views as pure functions of a database snapshot.  Dates are modeled as
naturals preserving the chronological order of the stored date strings;
BFS identifiers are naturals; SQLite REAL arithmetic on the recomputed
percentage columns is modeled by exact rationals.
-/

/-- A row of the `votings` table (`00_import_all_data.py`, schema lines
86-92); `voting_id` is the primary key.  Only the columns read by the
analysis views are modeled. -/
structure VotingRow where
  voting_id : Nat
  voting_date : Nat
deriving DecidableEq

/-- A row of the `proposals` table (schema lines 95-108); `proposal_id` is
the primary key and `voting_id` a foreign key into `votings`.  Only the
columns read by the analysis views are modeled. -/
structure ProposalRow where
  proposal_id : Nat
  voting_id : Nat
  title_de : String
  title_fr : String
  title_it : String
  angenommen : Bool
deriving DecidableEq

/-- A row of the `voting_results` table (schema lines 143-160): one
measurement record for one geographic unit and one proposal, carrying the
five additive integer count columns. -/
structure VotingResultRow where
  voting_id : Nat
  proposal_id : Nat
  geo_level : String
  geo_id : Nat
  geo_name : String
  ja_stimmen_absolut : Nat
  nein_stimmen_absolut : Nat
  gueltige_stimmen : Nat
  eingelegte_stimmzettel : Nat
  anzahl_stimmberechtigte : Nat
deriving DecidableEq

/-- A row of the `municipal_changes` table (`import_municipal_changes.py`,
schema lines 151-180): one administrative mutation record with predecessor
id, successor id and mutation date.  Only the columns read by the analysis
views are modeled. -/
structure ChangeRow where
  old_bfs_number : Nat
  old_name : String
  new_bfs_number : Nat
  new_name : String
  mutation_date : Nat
deriving DecidableEq

/-- The database snapshot read by `create_analysis_views.py`. -/
structure Db where
  votings : List VotingRow
  proposals : List ProposalRow
  voting_results : List VotingResultRow
  municipal_changes : List ChangeRow
deriving DecidableEq

/-- The join `voting_results INNER JOIN votings` restricted to
municipality-level rows, shared by the lifecycle analysis and by the
`voting_municipalities` CTE (`create_analysis_views.py`, lines 90-99). -/
def municipalityJoin (db : Db) : List (VotingResultRow × VotingRow) :=
  db.voting_results.flatMap (fun vr =>
    if vr.geo_level = "municipality" then
      (db.votings.filter (fun v => v.voting_id == vr.voting_id)).map (fun v => (vr, v))
    else [])

/-- SQL `MIN` over the dates of a group; groups are nonempty by
construction, so the default for the empty list is never read. -/
def minDate : List Nat → Nat
  | [] => 0
  | d :: ds => ds.foldl min d

/-- A row of the CTE `voting_municipalities` (lines 90-99): a municipality
observed in voting data together with its first appearance date. -/
structure SeedRow where
  bfs : Nat
  name : String
  first_appearance : Nat
deriving DecidableEq

/-- The CTE `voting_municipalities` (lines 90-99): one row per distinct
`(geo_id, geo_name)` pair present in municipality-level voting data, with
`MIN(voting_date)` of that pair as `first_appearance`. -/
def voting_municipalities (db : Db) : List SeedRow :=
  ((municipalityJoin db).map (fun x => (x.1.geo_id, x.1.geo_name))).dedup.map
    (fun g =>
      { bfs := g.1
        name := g.2
        first_appearance :=
          minDate (((municipalityJoin db).filter
            (fun x => x.1.geo_id == g.1 && x.1.geo_name == g.2)).map
            (fun x => x.2.voting_date)) })

/-- The CTE `true_splits` (`create_analysis_views.py`, lines 100-113): ids
whose outgoing structural mutations diverge to two different successor ids
on the same mutation date. -/
def true_splits (changes : List ChangeRow) : List Nat :=
  ((changes.filter (fun mc1 =>
      mc1.old_bfs_number != mc1.new_bfs_number &&
      changes.any (fun mc2 =>
        mc2.old_bfs_number == mc1.old_bfs_number &&
        mc2.new_bfs_number != mc1.new_bfs_number &&
        mc2.mutation_date == mc1.mutation_date &&
        mc2.old_bfs_number != mc2.new_bfs_number))).map
    (fun mc1 => mc1.old_bfs_number)).dedup

/-- C4: an old id is classified as a true split origin if and only if two
structural mutation records (predecessor differing from successor) share
that old id and the same mutation date but have different successor ids;
in particular sequential changes on different dates never qualify. -/
theorem true_split_origin_iff (changes : List ChangeRow) (b : Nat) :
    b ∈ true_splits changes ↔
      ∃ mc1 ∈ changes, ∃ mc2 ∈ changes,
        mc1.old_bfs_number = b ∧ mc2.old_bfs_number = b ∧
        mc1.old_bfs_number ≠ mc1.new_bfs_number ∧
        mc2.old_bfs_number ≠ mc2.new_bfs_number ∧
        mc2.mutation_date = mc1.mutation_date ∧
        mc2.new_bfs_number ≠ mc1.new_bfs_number := by
  unfold true_splits
  simp only [List.mem_dedup, List.mem_map, List.mem_filter, List.any_eq_true,
    Bool.and_eq_true, bne_iff_ne, beq_iff_eq]
  constructor
  · intro h
    obtain ⟨mc1, h1, hold⟩ := h
    obtain ⟨hmc1, hne1, mc2, h2⟩ := h1
    obtain ⟨hmc2, ⟨⟨holdeq, hnewne⟩, hdate⟩, hne2⟩ := h2
    exact ⟨mc1, hmc1, mc2, hmc2, hold, holdeq.trans hold, hne1, hne2, hdate, hnewne⟩
  · rintro ⟨mc1, hmc1, mc2, hmc2, hold1, hold2, hne1, hne2, hdate, hnewne⟩
    exact ⟨mc1, ⟨hmc1, hne1, mc2, hmc2, ⟨⟨hold2.trans hold1.symm, hnewne⟩, hdate⟩, hne2⟩, hold1⟩

/-- A row of the recursive CTE `merger_chain` (`create_analysis_views.py`,
lines 115-146) and, after the final `GROUP BY`, of the view
`v_stable_municipality_mapping` itself (whose `merge_depth` column is this
`depth` field). -/
structure ChainRow where
  original_bfs : Nat
  original_name : String
  analysis_bfs : Nat
  analysis_name : String
  first_appearance : Nat
  depth : Nat
deriving DecidableEq

/-- One unfolding of the recursive arm of `merger_chain` (lines 128-145):
every row still below the depth bound and not sitting on a true split origin
is extended along each qualifying outgoing mutation edge. -/
def chainStep (changes : List ChangeRow) (splits : List Nat)
    (rows : List ChainRow) : List ChainRow :=
  rows.flatMap (fun r =>
    if r.depth < 10 ∧ r.analysis_bfs ∉ splits then
      (changes.filter (fun mch =>
          mch.old_bfs_number == r.analysis_bfs &&
          mch.old_bfs_number != mch.new_bfs_number &&
          decide (r.first_appearance ≤ mch.mutation_date))).map
        (fun mch =>
          { original_bfs := r.original_bfs
            original_name := r.original_name
            analysis_bfs := mch.new_bfs_number
            analysis_name := mch.new_name
            first_appearance := r.first_appearance
            depth := r.depth + 1 })
    else [])

/-- Depth-indexed levels of the recursive CTE `merger_chain` (lines
115-146): level 0 is the base case seeded from `voting_municipalities`
(lines 116-124), level `d+1` extends level `d` by the recursive arm. -/
def chainLevel (db : Db) : Nat → List ChainRow
  | 0 => (voting_municipalities db).map (fun vm =>
      { original_bfs := vm.bfs
        original_name := vm.name
        analysis_bfs := vm.bfs
        analysis_name := vm.name
        first_appearance := vm.first_appearance
        depth := 0 })
  | d + 1 =>
      chainStep db.municipal_changes (true_splits db.municipal_changes) (chainLevel db d)

/-- All rows of the recursive CTE `merger_chain`.  Eleven levels are
exhaustive: `chainLevel_eq_nil_of_gt` below shows every later level is
empty, so the SQL fixpoint (whose `UNION` merely removes duplicate rows)
produces exactly the rows listed here. -/
def merger_chain (db : Db) : List ChainRow :=
  (List.range 11).flatMap (chainLevel db)

theorem depth_eq_level (db : Db) :
    ∀ d, ∀ r ∈ chainLevel db d, r.depth = d := by
  intro d
  induction d with
  | zero =>
      intro r hr
      simp only [chainLevel, List.mem_map] at hr
      obtain ⟨vm, _, rfl⟩ := hr
      rfl
  | succ d ih =>
      intro r hr
      simp only [chainLevel, chainStep, List.mem_flatMap] at hr
      obtain ⟨r0, hr0, hr⟩ := hr
      by_cases hc : r0.depth < 10 ∧ r0.analysis_bfs ∉ true_splits db.municipal_changes
      · rw [if_pos hc] at hr
        simp only [List.mem_map] at hr
        obtain ⟨mch, _, rfl⟩ := hr
        simp [ih r0 hr0]
      · rw [if_neg hc] at hr
        simp at hr

theorem chainLevel_eleven_eq_nil (db : Db) : chainLevel db 11 = [] := by
  have h10 := depth_eq_level db 10
  show chainStep _ _ (chainLevel db 10) = []
  unfold chainStep
  rw [List.flatMap_eq_nil_iff]
  intro r hr
  rw [if_neg]
  rintro ⟨hlt, -⟩
  rw [h10 r hr] at hlt
  exact absurd hlt (by norm_num)

theorem chainLevel_eq_nil_of_gt (db : Db) : ∀ d, 10 < d → chainLevel db d = [] := by
  intro d hd
  obtain ⟨k, rfl⟩ : ∃ k, d = 11 + k := ⟨d - 11, by omega⟩
  induction k with
  | zero => exact chainLevel_eleven_eq_nil db
  | succ k ih =>
      have : chainLevel db (11 + k) = [] := ih (by omega)
      show chainStep _ _ (chainLevel db (11 + k)) = []
      rw [this]
      rfl

theorem mem_merger_chain_iff (db : Db) (r : ChainRow) :
    r ∈ merger_chain db ↔ ∃ d, d < 11 ∧ r ∈ chainLevel db d := by
  simp [merger_chain, List.mem_flatMap, List.mem_range]

theorem merger_chain_depth_le (db : Db) : ∀ r ∈ merger_chain db, r.depth ≤ 10 := by
  intro r hr
  obtain ⟨d, hd, hrd⟩ := (mem_merger_chain_iff db r).mp hr
  rw [depth_eq_level db d r hrd]
  omega

/-- C7: for every database, the chain construction of the resolver is
a halting computation: every emitted `merger_chain` row has depth at most
10, and every recursion level past the bound (in particular level
`bound + 1 = 11`) is empty, so the fixpoint is reached within `bound + 1`
rounds on any mutation set, including cyclic ones. -/
theorem resolver_halts_within_bound (db : Db) :
    (∀ r ∈ merger_chain db, r.depth ≤ 10) ∧
      (∀ d, 10 < d → chainLevel db d = []) :=
  ⟨merger_chain_depth_le db, chainLevel_eq_nil_of_gt db⟩

theorem chainStep_inversion (changes : List ChangeRow) (splits : List Nat)
    (rows : List ChainRow) (x : ChainRow) (hx : x ∈ chainStep changes splits rows) :
    ∃ r ∈ rows, r.depth < 10 ∧ r.analysis_bfs ∉ splits ∧
      x.original_bfs = r.original_bfs ∧ x.original_name = r.original_name ∧
      x.first_appearance = r.first_appearance ∧ x.depth = r.depth + 1 ∧
      ∃ mch ∈ changes, mch.old_bfs_number = r.analysis_bfs ∧
        mch.old_bfs_number ≠ mch.new_bfs_number ∧
        r.first_appearance ≤ mch.mutation_date ∧
        x.analysis_bfs = mch.new_bfs_number ∧ x.analysis_name = mch.new_name := by
  simp only [chainStep, List.mem_flatMap] at hx
  obtain ⟨r, hr, hx⟩ := hx
  by_cases hc : r.depth < 10 ∧ r.analysis_bfs ∉ splits
  · rw [if_pos hc] at hx
    simp only [List.mem_map, List.mem_filter, Bool.and_eq_true, beq_iff_eq,
      bne_iff_ne, decide_eq_true_eq] at hx
    obtain ⟨mch, hfilter, rfl⟩ := hx
    obtain ⟨hmch, ⟨hold, hne⟩, hdate⟩ := hfilter
    exact ⟨r, hr, hc.1, hc.2, rfl, rfl, rfl, rfl, mch, hmch, hold, hne, hdate, rfl, rfl⟩
  · rw [if_neg hc] at hx
    simp at hx

theorem split_seed_frozen (db : Db) (b : Nat)
    (hb : b ∈ true_splits db.municipal_changes) :
    ∀ d, ∀ r ∈ chainLevel db d, r.original_bfs = b →
      r.depth = 0 ∧ r.analysis_bfs = b := by
  intro d
  induction d with
  | zero =>
      intro r hr horig
      simp only [chainLevel, List.mem_map] at hr
      obtain ⟨vm, _, rfl⟩ := hr
      exact ⟨rfl, horig⟩
  | succ d ih =>
      intro r hr horig
      obtain ⟨r0, hr0, -, hns, horig0, -, -, -, -⟩ :=
        chainStep_inversion _ _ _ r hr
      have h0 := ih r0 hr0 (horig0 ▸ horig)
      exact absurd (h0.2 ▸ hb) hns

/-- C5: the resolver never extends a lineage chain from a true split origin.
Part one: every row of a deeper recursion level is derived from a row of the
previous level whose analysis id is not a true split origin, via a
structural mutation edge dated no earlier than the seed's first appearance.
Part two: a seed that is itself a true split origin never advances -- all of
its chain rows stay at depth 0 on the seed itself, so its old identity never
resolves forward past its split date under any branch. -/
theorem split_origin_terminal (db : Db) :
    (∀ d, ∀ x ∈ chainLevel db (d + 1),
      ∃ r ∈ chainLevel db d,
        r.analysis_bfs ∉ true_splits db.municipal_changes ∧
        x.original_bfs = r.original_bfs ∧ x.depth = r.depth + 1 ∧
        ∃ mch ∈ db.municipal_changes, mch.old_bfs_number = r.analysis_bfs ∧
          mch.old_bfs_number ≠ mch.new_bfs_number ∧
          r.first_appearance ≤ mch.mutation_date ∧
          x.analysis_bfs = mch.new_bfs_number) ∧
    (∀ b ∈ true_splits db.municipal_changes,
      ∀ r ∈ merger_chain db, r.original_bfs = b →
        r.depth = 0 ∧ r.analysis_bfs = b) := by
  constructor
  · intro d x hx
    obtain ⟨r, hr, -, hns, horig, -, -, hdep, mch, hmch, hold, hne, hdate, hana, -⟩ :=
      chainStep_inversion _ _ _ x hx
    exact ⟨r, hr, hns, horig, hdep, mch, hmch, hold, hne, hdate, hana⟩
  · intro b hb r hr horig
    obtain ⟨d, -, hrd⟩ := (mem_merger_chain_iff db r).mp hr
    exact split_seed_frozen db b hb d r hrd horig

/-- Choice between the head of a group and the best row of its tail: keep
whichever has the larger depth, preferring the earlier row on ties. -/
def deeper (r : ChainRow) : Option ChainRow → ChainRow
  | none => r
  | some a => if r.depth < a.depth then a else r

/-- The final `SELECT ... GROUP BY original_bfs HAVING depth = MAX(depth)`
of `v_stable_municipality_mapping` (lines 147-160) keeps, per group, a row
achieving the maximal depth (SQLite's bare-column rule together with the
`HAVING` clause); among several rows of equal maximal depth the choice is
unspecified, which this model fixes as the first such row. -/
def pickMax : List ChainRow → Option ChainRow
  | [] => none
  | r :: rs => some (deeper r (pickMax rs))

theorem pickMax_mem : ∀ (l : List ChainRow) (r : ChainRow), pickMax l = some r → r ∈ l := by
  intro l
  induction l with
  | nil => intro r h; simp [pickMax] at h
  | cons x xs ih =>
      intro r h
      rw [pickMax, Option.some_inj] at h
      cases hxs : pickMax xs with
      | none =>
          rw [hxs] at h
          simp only [deeper] at h
          rw [← h]; exact List.mem_cons_self x xs
      | some a =>
          rw [hxs] at h
          simp only [deeper] at h
          by_cases hd : x.depth < a.depth
          · rw [if_pos hd] at h
            rw [← h]
            exact List.mem_cons_of_mem x (ih a hxs)
          · rw [if_neg hd] at h
            rw [← h]
            exact List.mem_cons_self x xs

theorem pickMax_eq_none_iff (l : List ChainRow) : pickMax l = none ↔ l = [] := by
  cases l with
  | nil => simp [pickMax]
  | cons x xs => simp [pickMax]

theorem pickMax_maximal : ∀ (l : List ChainRow) (r : ChainRow), pickMax l = some r →
    ∀ x ∈ l, x.depth ≤ r.depth := by
  intro l
  induction l with
  | nil => intro r h; simp [pickMax] at h
  | cons y ys ih =>
      intro r h x hx
      rw [pickMax, Option.some_inj] at h
      cases hys : pickMax ys with
      | none =>
          rw [hys] at h
          simp only [deeper] at h
          rcases List.mem_cons.mp hx with rfl | hx
          · rw [← h]
          · rw [(pickMax_eq_none_iff ys).mp hys] at hx
            exact absurd hx (by simp)
      | some a =>
          rw [hys] at h
          simp only [deeper] at h
          by_cases hd : y.depth < a.depth
          · rw [if_pos hd] at h
            rcases List.mem_cons.mp hx with rfl | hx
            · rw [← h]; exact Nat.le_of_lt hd
            · rw [← h]; exact ih a hys x hx
          · rw [if_neg hd] at h
            rcases List.mem_cons.mp hx with rfl | hx
            · rw [← h]
            · rw [← h]; exact Nat.le_trans (ih a hys x hx) (Nat.le_of_not_lt hd)

/-- The distinct group keys of the final `GROUP BY original_bfs`: the ids of
the municipalities observed in voting data. -/
def originalIds (db : Db) : List Nat :=
  ((voting_municipalities db).map (fun vm => vm.bfs)).dedup

/-- The view `v_stable_municipality_mapping` (`create_analysis_views.py`,
lines 86-161): one row per original id observed in voting data, carrying a
maximal-depth `merger_chain` row for that id (its `depth` field is the
`merge_depth = MAX(depth)` output column). -/
def v_stable_municipality_mapping (db : Db) : List ChainRow :=
  (originalIds db).filterMap (fun b =>
    pickMax ((merger_chain db).filter (fun r => r.original_bfs == b)))

/-- The base-case row of `merger_chain` produced from one seed (lines
116-124). -/
def baseRow (vm : SeedRow) : ChainRow :=
  { original_bfs := vm.bfs
    original_name := vm.name
    analysis_bfs := vm.bfs
    analysis_name := vm.name
    first_appearance := vm.first_appearance
    depth := 0 }

theorem base_row_mem (db : Db) (vm : SeedRow) (hvm : vm ∈ voting_municipalities db) :
    baseRow vm ∈ merger_chain db := by
  rw [mem_merger_chain_iff]
  refine ⟨0, by norm_num, ?_⟩
  simp only [chainLevel, List.mem_map]
  exact ⟨vm, hvm, rfl⟩

theorem chain_filter_ne_nil (db : Db) (b : Nat) (hb : b ∈ originalIds db) :
    (merger_chain db).filter (fun r => r.original_bfs == b) ≠ [] := by
  simp only [originalIds, List.mem_dedup, List.mem_map] at hb
  obtain ⟨vm, hvm, hbfs⟩ := hb
  intro hnil
  have hmem : baseRow vm ∈ (merger_chain db).filter (fun r => r.original_bfs == b) := by
    rw [List.mem_filter]
    exact ⟨base_row_mem db vm hvm, by simp [baseRow, hbfs]⟩
  rw [hnil] at hmem
  exact absurd hmem (by simp)

theorem mem_municipalityJoin (db : Db) (vr : VotingResultRow) (v : VotingRow) :
    (vr, v) ∈ municipalityJoin db ↔
      vr ∈ db.voting_results ∧ v ∈ db.votings ∧
        vr.geo_level = "municipality" ∧ v.voting_id = vr.voting_id := by
  simp only [municipalityJoin, List.mem_flatMap]
  constructor
  · rintro ⟨vr0, hvr0, hmem⟩
    by_cases hlvl : vr0.geo_level = "municipality"
    · rw [if_pos hlvl] at hmem
      simp only [List.mem_map, List.mem_filter, beq_iff_eq] at hmem
      obtain ⟨v0, ⟨hv0, hid⟩, heq⟩ := hmem
      obtain ⟨rfl, rfl⟩ := Prod.mk.injEq .. ▸ heq
      exact ⟨hvr0, hv0, hlvl, hid⟩
    · rw [if_neg hlvl] at hmem
      exact absurd hmem (by simp)
  · rintro ⟨hvr, hv, hlvl, hid⟩
    refine ⟨vr, hvr, ?_⟩
    rw [if_pos hlvl]
    simp only [List.mem_map, List.mem_filter, beq_iff_eq]
    exact ⟨v, ⟨hv, hid⟩, rfl⟩

theorem seed_exists (db : Db) (g : Nat) (n : String)
    (h : ∃ x ∈ municipalityJoin db, x.1.geo_id = g ∧ x.1.geo_name = n) :
    ∃ vm ∈ voting_municipalities db, vm.bfs = g := by
  obtain ⟨x, hx, hg, hn⟩ := h
  have hpair : (g, n) ∈ ((municipalityJoin db).map
      (fun x => (x.1.geo_id, x.1.geo_name))).dedup := by
    rw [List.mem_dedup, List.mem_map]
    exact ⟨x, hx, by rw [hg, hn]⟩
  refine ⟨_, List.mem_map_of_mem _ hpair, rfl⟩

theorem filterMap_pick_count (pick : Nat → Option ChainRow)
    (hbfs : ∀ b r, pick b = some r → r.original_bfs = b) (g : Nat) :
    ∀ ids : List Nat, ids.Nodup → (∀ b ∈ ids, pick b ≠ none) →
      ((ids.filterMap pick).filter (fun r => r.original_bfs == g)).length
        = if g ∈ ids then 1 else 0 := by
  intro ids
  induction ids with
  | nil => intro _ _; simp
  | cons b ids ih =>
      intro hnd hsome
      obtain ⟨r, hr⟩ := Option.ne_none_iff_exists'.mp (hsome b (List.mem_cons_self b ids))
      rw [List.filterMap_cons, hr]
      have hrb : r.original_bfs = b := hbfs b r hr
      have ihv := ih (List.nodup_cons.mp hnd).2
        (fun c hc => hsome c (List.mem_cons_of_mem b hc))
      by_cases hgb : g = b
      · subst hgb
        rw [List.filter_cons_of_pos (by simp [hrb])]
        rw [List.length_cons, ihv, if_neg (List.nodup_cons.mp hnd).1,
          if_pos (List.mem_cons_self g ids)]
      · rw [List.filter_cons_of_neg
          (by simp only [hrb, beq_iff_eq]; exact fun h => hgb h.symm)]
        rw [ihv]
        by_cases hgi : g ∈ ids
        · rw [if_pos hgi, if_pos (List.mem_cons_of_mem b hgi)]
        · rw [if_neg hgi, if_neg (by simp [List.mem_cons, hgb, hgi])]

theorem mapping_count (db : Db) (g : Nat) :
    ((v_stable_municipality_mapping db).filter (fun r => r.original_bfs == g)).length
      = if g ∈ originalIds db then 1 else 0 := by
  apply filterMap_pick_count
  · intro b r hr
    have hmem := pickMax_mem _ r hr
    rw [List.mem_filter] at hmem
    exact beq_iff_eq.mp hmem.2
  · exact List.nodup_dedup _
  · intro b hb
    rw [Ne, pickMax_eq_none_iff]
    exact chain_filter_ne_nil db b hb

/-- C3: every municipality id that appears in municipality-level voting data
has exactly one row in `v_stable_municipality_mapping` with that
`original_bfs` -- each original id maps to exactly one analysis id, never
zero and never more than one.  The foreign-key hypothesis states that every
municipality result row references an existing voting, as the schema
enforces. -/
theorem mapping_total_function (db : Db) (g : Nat)
    (href : ∀ vr ∈ db.voting_results, vr.geo_level = "municipality" →
      ∃ v ∈ db.votings, v.voting_id = vr.voting_id)
    (hg : ∃ vr ∈ db.voting_results, vr.geo_level = "municipality" ∧ vr.geo_id = g) :
    ((v_stable_municipality_mapping db).filter
      (fun r => r.original_bfs == g)).length = 1 := by
  rw [mapping_count]
  rw [if_pos]
  obtain ⟨vr, hvr, hlvl, hgid⟩ := hg
  obtain ⟨v, hv, hvid⟩ := href vr hvr hlvl
  have hjoin : (vr, v) ∈ municipalityJoin db :=
    (mem_municipalityJoin db vr v).mpr ⟨hvr, hv, hlvl, hvid⟩
  obtain ⟨vm, hvm, hbfs⟩ :=
    seed_exists db g vr.geo_name ⟨(vr, v), hjoin, hgid, rfl⟩
  rw [originalIds, List.mem_dedup, List.mem_map]
  exact ⟨vm, hvm, hbfs⟩

/-- One row of the four-way join underlying `v_voting_results_analysis`
(lines 211-215): `votings INNER JOIN proposals INNER JOIN voting_results
INNER JOIN v_stable_municipality_mapping`, restricted to municipality
rows. -/
structure JoinRow where
  v : VotingRow
  p : ProposalRow
  vr : VotingResultRow
  m : ChainRow
deriving DecidableEq

/-- The join underlying `v_voting_results_analysis` (lines 211-215). -/
def analysisJoin (db : Db) : List JoinRow :=
  db.votings.flatMap (fun v =>
    (db.proposals.filter (fun p => p.voting_id == v.voting_id)).flatMap (fun p =>
      (db.voting_results.filter (fun vr =>
          vr.proposal_id == p.proposal_id && vr.geo_level == "municipality")).flatMap
        (fun vr =>
          ((v_stable_municipality_mapping db).filter
              (fun m => m.original_bfs == vr.geo_id)).map
            (fun m => { v := v, p := p, vr := vr, m := m }))))

/-- The `GROUP BY` key of `v_voting_results_analysis` (lines 216-225). -/
structure AggKey where
  voting_id : Nat
  voting_date : Nat
  proposal_id : Nat
  title_de : String
  title_fr : String
  title_it : String
  angenommen : Bool
  municipality_id : Nat
  municipality_name : String
deriving DecidableEq

def aggKey (x : JoinRow) : AggKey :=
  { voting_id := x.v.voting_id
    voting_date := x.v.voting_date
    proposal_id := x.p.proposal_id
    title_de := x.p.title_de
    title_fr := x.p.title_fr
    title_it := x.p.title_it
    angenommen := x.p.angenommen
    municipality_id := x.m.analysis_bfs
    municipality_name := x.m.analysis_name }

/-- A row of the view `v_voting_results_analysis` (lines 179-226): the
grouping key, the five summed count columns, the two percentage columns
recomputed from the sums (NULL on a zero denominator), and the distinct
source-municipality count. -/
structure AggRow where
  voting_id : Nat
  voting_date : Nat
  proposal_id : Nat
  title_de : String
  title_fr : String
  title_it : String
  angenommen : Bool
  municipality_id : Nat
  municipality_name : String
  ja_stimmen_absolut : Nat
  nein_stimmen_absolut : Nat
  gueltige_stimmen : Nat
  eingelegte_stimmzettel : Nat
  anzahl_stimmberechtigte : Nat
  ja_prozent : Option ℚ
  stimmbeteiligung : Option ℚ
  source_municipality_count : Nat
deriving DecidableEq

/-- SQLite `ROUND(x, 2)` on the nonnegative ratios produced by the view:
round to two decimals, halves away from zero (which on nonnegative input
coincides with rounding halves up); SQLite REAL values are modeled as exact
rationals. -/
def round2 (q : ℚ) : ℚ := ((round (q * 100) : ℤ) : ℚ) / 100

/-- SQL `SUM` of one count column over a group of join rows. -/
def sumBy (g : List JoinRow) (f : VotingResultRow → Nat) : Nat :=
  (g.map (fun x => f x.vr)).sum

/-- The aggregate row of `v_voting_results_analysis` for one group
(lines 180-210). -/
def mkAggRow (k : AggKey) (g : List JoinRow) : AggRow :=
  { voting_id := k.voting_id
    voting_date := k.voting_date
    proposal_id := k.proposal_id
    title_de := k.title_de
    title_fr := k.title_fr
    title_it := k.title_it
    angenommen := k.angenommen
    municipality_id := k.municipality_id
    municipality_name := k.municipality_name
    ja_stimmen_absolut := sumBy g (fun vr => vr.ja_stimmen_absolut)
    nein_stimmen_absolut := sumBy g (fun vr => vr.nein_stimmen_absolut)
    gueltige_stimmen := sumBy g (fun vr => vr.gueltige_stimmen)
    eingelegte_stimmzettel := sumBy g (fun vr => vr.eingelegte_stimmzettel)
    anzahl_stimmberechtigte := sumBy g (fun vr => vr.anzahl_stimmberechtigte)
    ja_prozent :=
      if 0 < sumBy g (fun vr => vr.gueltige_stimmen) then
        some (round2 (100 * (sumBy g (fun vr => vr.ja_stimmen_absolut) : ℚ) /
          (sumBy g (fun vr => vr.gueltige_stimmen) : ℚ)))
      else none
    stimmbeteiligung :=
      if 0 < sumBy g (fun vr => vr.anzahl_stimmberechtigte) then
        some (round2 (100 * (sumBy g (fun vr => vr.eingelegte_stimmzettel) : ℚ) /
          (sumBy g (fun vr => vr.anzahl_stimmberechtigte) : ℚ)))
      else none
    source_municipality_count := ((g.map (fun x => x.vr.geo_id)).dedup).length }

/-- The view `v_voting_results_analysis` (`create_analysis_views.py`, lines
179-226): one aggregate row per distinct grouping key of the join. -/
def v_voting_results_analysis (db : Db) : List AggRow :=
  (((analysisJoin db).map aggKey).dedup).map (fun k =>
    mkAggRow k ((analysisJoin db).filter (fun x => aggKey x == k)))

/-- C8: in every aggregated row whose summed valid-vote count is positive,
the yes-percentage equals 100 times the summed yes votes divided by the
summed valid votes, rounded to two decimals -- it is recomputed from the
summed numerator and denominator, never an average of per-entity
percentages. -/
theorem ja_prozent_weighted (db : Db) (row : AggRow)
    (hrow : row ∈ v_voting_results_analysis db)
    (hpos : 0 < row.gueltige_stimmen) :
    row.ja_prozent = some (round2 (100 * (row.ja_stimmen_absolut : ℚ) /
      (row.gueltige_stimmen : ℚ))) := by
  simp only [v_voting_results_analysis, List.mem_map] at hrow
  obtain ⟨k, -, rfl⟩ := hrow
  simp only [mkAggRow] at hpos ⊢
  rw [if_pos hpos]

theorem sum_map_add {α : Type} (l : List α) (f g : α → Nat) :
    (l.map (fun a => f a + g a)).sum = (l.map f).sum + (l.map g).sum := by
  induction l with
  | nil => rfl
  | cons a l ih =>
      simp only [List.map_cons, List.sum_cons, ih]
      omega

theorem sum_map_const {α : Type} (l : List α) (c : Nat) :
    (l.map (fun _ => c)).sum = l.length * c := by
  induction l with
  | nil => simp
  | cons a l ih =>
      simp only [List.map_cons, List.sum_cons, ih, List.length_cons]
      ring

theorem sum_filter_eq {α : Type} (l : List α) (p : α → Bool) (F : α → Nat) :
    ((l.filter p).map F).sum = (l.map (fun a => if p a = true then F a else 0)).sum := by
  induction l with
  | nil => rfl
  | cons a l ih =>
      by_cases h : p a = true
      · rw [List.filter_cons_of_pos h]
        simp [h, ih]
      · rw [List.filter_cons_of_neg h]
        simp [h, ih]

theorem sum_flatMap_eq {α β : Type} (l : List α) (g : α → List β) (F : β → Nat) :
    ((l.flatMap g).map F).sum = (l.map (fun a => ((g a).map F).sum)).sum := by
  induction l with
  | nil => rfl
  | cons a l ih =>
      simp only [List.flatMap_cons, List.map_append, List.sum_append, List.map_cons,
        List.sum_cons, ih]

theorem sum_map_ite_key {κ : Type} [DecidableEq κ] (q : κ → Bool) (k0 : κ) (c : Nat) :
    ∀ ks : List κ, ks.Nodup →
      (ks.map (fun k => if q k = true ∧ k0 = k then c else 0)).sum
        = if k0 ∈ ks ∧ q k0 = true then c else 0 := by
  intro ks
  induction ks with
  | nil => intro _; simp
  | cons k ks ih =>
      intro hnd
      rw [List.map_cons, List.sum_cons, ih (List.nodup_cons.mp hnd).2]
      by_cases hk : k0 = k
      · subst hk
        have hnotin : k0 ∉ ks := (List.nodup_cons.mp hnd).1
        by_cases hq : q k0 = true
        · simp [hq, hnotin]
        · simp [hq, hnotin]
      · by_cases hin : k0 ∈ ks <;> by_cases hq : q k0 = true <;>
          simp [hk, hin, hq, List.mem_cons]

theorem sum_over_keys {α κ : Type} [DecidableEq κ] (F : α → Nat) (key : α → κ)
    (q : κ → Bool) (ks : List κ) (hnd : ks.Nodup) :
    ∀ l : List α, (∀ a ∈ l, q (key a) = true → key a ∈ ks) →
      (ks.map (fun k =>
          if q k = true then ((l.filter (fun a => key a == k)).map F).sum else 0)).sum
        = ((l.filter (fun a => q (key a))).map F).sum := by
  intro l
  induction l with
  | nil =>
      intro _
      simp
  | cons a l ih =>
      intro hcov
      have hcov' : ∀ x ∈ l, q (key x) = true → key x ∈ ks :=
        fun x hx => hcov x (List.mem_cons_of_mem a hx)
      have hsplit : ∀ k ∈ ks,
          (if q k = true then (((a :: l).filter (fun x => key x == k)).map F).sum else 0)
            = (if q k = true ∧ key a = k then F a else 0)
              + (if q k = true then ((l.filter (fun x => key x == k)).map F).sum else 0) := by
        intro k _
        by_cases hq : q k = true
        · by_cases hka : key a = k
          · rw [List.filter_cons_of_pos (by simp [hka])]
            simp [hq, hka]
          · rw [List.filter_cons_of_neg (by simp [hka])]
            simp [hq, hka]
        · simp [hq]
      rw [List.map_congr_left hsplit, sum_map_add, ih hcov',
        sum_map_ite_key q (key a) (F a) ks hnd]
      by_cases hqa : q (key a) = true
      · rw [List.filter_cons_of_pos (by simp [hqa])]
        simp [hqa, hcov a (List.mem_cons_self a l) hqa]
      · rw [List.filter_cons_of_neg (by simp [hqa])]
        simp [hqa]

theorem sum_over_groups {α κ : Type} [DecidableEq κ] (l : List α) (key : α → κ)
    (F : α → Nat) (q : κ → Bool) :
    (((l.map key).dedup).map
        (fun k => if q k = true then ((l.filter (fun a => key a == k)).map F).sum else 0)).sum
      = ((l.filter (fun a => q (key a))).map F).sum :=
  sum_over_keys F key q _ (List.nodup_dedup _) l
    (fun _ ha _ => List.mem_dedup.mpr (List.mem_map_of_mem key ha))

theorem count_key_of_nodup {α κ : Type} [DecidableEq κ] (idf : α → κ) :
    ∀ l : List α, (l.map idf).Nodup → ∀ k,
      (l.filter (fun x => idf x == k)).length = if k ∈ l.map idf then 1 else 0 := by
  intro l
  induction l with
  | nil => intro _ k; simp
  | cons a l ih =>
      intro hnd k
      have ihv := ih (List.nodup_cons.mp (by simpa using hnd)).2 k
      by_cases hk : idf a = k
      · rw [List.filter_cons_of_pos (by simp [hk])]
        have hnotin : k ∉ l.map idf := by
          rw [← hk]
          exact (List.nodup_cons.mp (by simpa using hnd)).1
        rw [List.length_cons, ihv, if_neg hnotin,
          if_pos (by simp [List.mem_cons, hk.symm])]
      · rw [List.filter_cons_of_neg (by simp [hk])]
        rw [ihv]
        by_cases hin : k ∈ l.map idf
        · rw [if_pos hin, if_pos (by simp [List.mem_cons, hin])]
        · rw [if_neg hin, if_neg (by
            simp only [List.map_cons, List.mem_cons, hin, or_false]
            exact fun h => hk h.symm)]

theorem sum_comm_filter {α β : Type} (V : List α) (Ps : List β)
    (mtch : β → α → Bool) (h : β → Nat) :
    (V.map (fun v => ((Ps.filter (fun p => mtch p v)).map h).sum)).sum
      = (Ps.map (fun p => (V.filter (fun v => mtch p v)).length * h p)).sum := by
  induction V with
  | nil =>
      simp
  | cons v V ih =>
      rw [List.map_cons, List.sum_cons, ih, sum_filter_eq]
      have hsplit : ∀ p ∈ Ps,
          (V.filter (fun w => mtch p w)).length * h p
              + (if mtch p v = true then h p else 0)
            = ((v :: V).filter (fun w => mtch p w)).length * h p := by
        intro p _
        by_cases hm : mtch p v = true
        · rw [List.filter_cons_of_pos hm]
          simp [hm, List.length_cons]
          ring
        · rw [List.filter_cons_of_neg hm]
          simp [hm]
      rw [← List.map_congr_left hsplit, sum_map_add]
      omega

theorem geo_mem_originalIds (db : Db) (vr : VotingResultRow)
    (hvr : vr ∈ db.voting_results) (hlvl : vr.geo_level = "municipality")
    (hv : ∃ v ∈ db.votings, v.voting_id = vr.voting_id) :
    vr.geo_id ∈ originalIds db := by
  obtain ⟨v, hvmem, hvid⟩ := hv
  have hjoin : (vr, v) ∈ municipalityJoin db :=
    (mem_municipalityJoin db vr v).mpr ⟨hvr, hvmem, hlvl, hvid⟩
  obtain ⟨vm, hvm, hbfs⟩ :=
    seed_exists db vr.geo_id vr.geo_name ⟨(vr, v), hjoin, rfl, rfl⟩
  rw [originalIds, List.mem_dedup, List.mem_map]
  exact ⟨vm, hvm, hbfs⟩

/-- Index of one of the five additive count columns of `voting_results`. -/
inductive CountField where
  | ja
  | nein
  | gueltige
  | stimmzettel
  | stimmberechtigte
deriving DecidableEq

/-- The selected count column of an original `voting_results` row. -/
def countField : CountField → VotingResultRow → Nat
  | .ja => fun vr => vr.ja_stimmen_absolut
  | .nein => fun vr => vr.nein_stimmen_absolut
  | .gueltige => fun vr => vr.gueltige_stimmen
  | .stimmzettel => fun vr => vr.eingelegte_stimmzettel
  | .stimmberechtigte => fun vr => vr.anzahl_stimmberechtigte

/-- The corresponding summed column of an aggregated view row. -/
def aggField : CountField → AggRow → Nat
  | .ja => fun row => row.ja_stimmen_absolut
  | .nein => fun row => row.nein_stimmen_absolut
  | .gueltige => fun row => row.gueltige_stimmen
  | .stimmzettel => fun row => row.eingelegte_stimmzettel
  | .stimmberechtigte => fun row => row.anzahl_stimmberechtigte

theorem aggField_mkAggRow (i : CountField) (k : AggKey) (g : List JoinRow) :
    aggField i (mkAggRow k g) = (g.map (fun x => countField i x.vr)).sum := by
  cases i <;> rfl

theorem beq_comm_nat (a b : Nat) : (a == b) = (b == a) := by
  by_cases h : a = b
  · subst h; rfl
  · rw [beq_eq_false_iff_ne.mpr h, beq_eq_false_iff_ne.mpr (Ne.symm h)]

theorem inner_value (db : Db) (P : Nat) (i : CountField)
    (hrv : ∀ vr ∈ db.voting_results, vr.geo_level = "municipality" →
      ∃ v ∈ db.votings, v.voting_id = vr.voting_id)
    (p : ProposalRow) :
    ((db.voting_results.filter (fun vr =>
        vr.proposal_id == p.proposal_id && vr.geo_level == "municipality")).map
      (fun vr => ((v_stable_municipality_mapping db).filter
          (fun m => m.original_bfs == vr.geo_id)).length *
        (if (p.proposal_id == P) = true then countField i vr else 0))).sum
      = if (p.proposal_id == P) = true then
          ((db.voting_results.filter (fun vr =>
              vr.geo_level == "municipality" && vr.proposal_id == P)).map
            (countField i)).sum
        else 0 := by
  by_cases hP : (p.proposal_id == P) = true
  · rw [if_pos hP]
    have hP' : p.proposal_id = P := beq_iff_eq.mp hP
    have hfix : ∀ vr ∈ db.voting_results.filter (fun vr =>
        vr.proposal_id == p.proposal_id && vr.geo_level == "municipality"),
        ((v_stable_municipality_mapping db).filter
            (fun m => m.original_bfs == vr.geo_id)).length *
          (if (p.proposal_id == P) = true then countField i vr else 0)
          = countField i vr := by
      intro vr hvr
      rw [List.mem_filter, Bool.and_eq_true, beq_iff_eq, beq_iff_eq] at hvr
      obtain ⟨hmem, -, hlvl⟩ := hvr
      rw [if_pos hP, mapping_count,
        if_pos (geo_mem_originalIds db vr hmem hlvl (hrv vr hmem hlvl)), one_mul]
    rw [List.map_congr_left hfix]
    have hpred : ∀ vr ∈ db.voting_results,
        (vr.proposal_id == p.proposal_id && vr.geo_level == "municipality")
          = (vr.geo_level == "municipality" && vr.proposal_id == P) := by
      intro vr _
      rw [hP', Bool.and_comm]
    rw [List.filter_congr hpred]
  · rw [if_neg hP]
    have hzero : ∀ vr ∈ db.voting_results.filter (fun vr =>
        vr.proposal_id == p.proposal_id && vr.geo_level == "municipality"),
        ((v_stable_municipality_mapping db).filter
            (fun m => m.original_bfs == vr.geo_id)).length *
          (if (p.proposal_id == P) = true then countField i vr else 0)
          = 0 := by
      intro vr _
      rw [if_neg hP, Nat.mul_zero]
    rw [List.map_congr_left hzero, sum_map_const, Nat.mul_zero]

theorem join_sum_eq (db : Db) (P : Nat) (i : CountField)
    (hrv : ∀ vr ∈ db.voting_results, vr.geo_level = "municipality" →
      ∃ v ∈ db.votings, v.voting_id = vr.voting_id) :
    ((analysisJoin db).map (fun x =>
        if ((aggKey x).proposal_id == P) = true then countField i x.vr else 0)).sum
      = (db.votings.map (fun v =>
          ((db.proposals.filter (fun p => p.voting_id == v.voting_id)).map (fun p =>
            if (p.proposal_id == P) = true then
              ((db.voting_results.filter (fun vr =>
                  vr.geo_level == "municipality" && vr.proposal_id == P)).map
                (countField i)).sum
            else 0)).sum)).sum := by
  rw [analysisJoin, sum_flatMap_eq]
  refine congrArg List.sum (List.map_congr_left ?_)
  intro v hvmem
  rw [sum_flatMap_eq]
  refine congrArg List.sum (List.map_congr_left ?_)
  intro p hpmem
  rw [sum_flatMap_eq, ← inner_value db P i hrv p]
  refine congrArg List.sum (List.map_congr_left ?_)
  intro vr hvrmem
  rw [List.map_map]
  have hconst : ((fun x : JoinRow =>
      if ((aggKey x).proposal_id == P) = true then countField i x.vr else 0) ∘
        (fun m => ({ v := v, p := p, vr := vr, m := m } : JoinRow)))
      = fun _ => (if (p.proposal_id == P) = true then countField i vr else 0) := rfl
  rw [hconst, sum_map_const, Nat.mul_comm]

/-- C1: conservation of every additive count column.  For every proposal
and every count field, the sum of that field over all rows of the
aggregated view `v_voting_results_analysis` belonging to that proposal
equals the sum of the same field over all original municipality-level
`voting_results` rows of that proposal.  The hypotheses are the schema
constraints: primary-key uniqueness of `votings.voting_id` and
`proposals.proposal_id`, and the foreign keys from `voting_results` to
`votings` and `proposals` and from `proposals` to `votings`. -/
theorem aggregation_conserves_totals (db : Db)
    (hv : (db.votings.map (fun v => v.voting_id)).Nodup)
    (hp : (db.proposals.map (fun p => p.proposal_id)).Nodup)
    (hrv : ∀ vr ∈ db.voting_results, vr.geo_level = "municipality" →
      ∃ v ∈ db.votings, v.voting_id = vr.voting_id)
    (hrp : ∀ vr ∈ db.voting_results, vr.geo_level = "municipality" →
      ∃ p ∈ db.proposals, p.proposal_id = vr.proposal_id)
    (hpv : ∀ p ∈ db.proposals, ∃ v ∈ db.votings, v.voting_id = p.voting_id)
    (P : Nat) (i : CountField) :
    (((v_voting_results_analysis db).filter
        (fun row => row.proposal_id == P)).map (aggField i)).sum
      = ((db.voting_results.filter (fun vr =>
          vr.geo_level == "municipality" && vr.proposal_id == P)).map
          (countField i)).sum := by
  simp only [v_voting_results_analysis]
  rw [sum_filter_eq, List.map_map]
  have hstep : ∀ k ∈ ((analysisJoin db).map aggKey).dedup,
      ((fun row => if (row.proposal_id == P) = true then aggField i row else 0) ∘
        (fun k => mkAggRow k ((analysisJoin db).filter (fun x => aggKey x == k)))) k
        = (if (k.proposal_id == P) = true then
            (((analysisJoin db).filter (fun x => aggKey x == k)).map
              (fun x => countField i x.vr)).sum
          else 0) := by
    intro k _
    show (if (k.proposal_id == P) = true then
        aggField i (mkAggRow k ((analysisJoin db).filter (fun x => aggKey x == k)))
      else 0) = _
    by_cases hk : (k.proposal_id == P) = true
    · rw [if_pos hk, if_pos hk, aggField_mkAggRow]
    · rw [if_neg hk, if_neg hk]
  rw [List.map_congr_left hstep,
    sum_over_groups (analysisJoin db) aggKey (fun x => countField i x.vr)
      (fun k => k.proposal_id == P),
    sum_filter_eq, join_sum_eq db P i hrv,
    sum_comm_filter db.votings db.proposals (fun p v => p.voting_id == v.voting_id)]
  have hcnt : ∀ p ∈ db.proposals,
      (db.votings.filter (fun v => p.voting_id == v.voting_id)).length *
          (if (p.proposal_id == P) = true then
            ((db.voting_results.filter (fun vr =>
                vr.geo_level == "municipality" && vr.proposal_id == P)).map
              (countField i)).sum
          else 0)
        = (if (p.proposal_id == P) = true then
            ((db.voting_results.filter (fun vr =>
                vr.geo_level == "municipality" && vr.proposal_id == P)).map
              (countField i)).sum
          else 0) := by
    intro p hpmem
    have hflip : db.votings.filter (fun v => p.voting_id == v.voting_id)
        = db.votings.filter (fun v => v.voting_id == p.voting_id) :=
      List.filter_congr (fun v _ => beq_comm_nat _ _)
    rw [hflip, count_key_of_nodup (fun v => v.voting_id) db.votings hv p.voting_id]
    obtain ⟨v0, hv0, hvid0⟩ := hpv p hpmem
    rw [if_pos (List.mem_map.mpr ⟨v0, hv0, hvid0⟩), one_mul]
  rw [List.map_congr_left hcnt,
    ← sum_filter_eq db.proposals (fun p => p.proposal_id == P), sum_map_const,
    count_key_of_nodup (fun p => p.proposal_id) db.proposals hp P]
  by_cases hPmem : P ∈ db.proposals.map (fun p => p.proposal_id)
  · rw [if_pos hPmem, one_mul]
  · rw [if_neg hPmem, Nat.zero_mul]
    have hnil : db.voting_results.filter (fun vr =>
        vr.geo_level == "municipality" && vr.proposal_id == P) = [] := by
      rw [List.filter_eq_nil_iff]
      intro vr hvr hcond
      rw [Bool.and_eq_true, beq_iff_eq, beq_iff_eq] at hcond
      obtain ⟨hlvl, hpid⟩ := hcond
      obtain ⟨p, hpmem, hpid2⟩ := hrp vr hvr hlvl
      exact hPmem (List.mem_map.mpr ⟨p, hpmem, by rw [hpid2, hpid]⟩)
    rw [hnil]
    rfl

theorem mapping_row_mem_chain (db : Db) (r : ChainRow)
    (hr : r ∈ v_stable_municipality_mapping db) : r ∈ merger_chain db := by
  rw [v_stable_municipality_mapping, List.mem_filterMap] at hr
  obtain ⟨b, -, hpick⟩ := hr
  have := pickMax_mem _ r hpick
  rw [List.mem_filter] at this
  exact this.1

/-- C2 (amended): reaching the depth bound is a silent truncation, not a
reported fault.  Every row of `v_stable_municipality_mapping` carries a
`merge_depth` of at most 10 -- a seed whose mutation chain is longer is
simply mapped to the node reached after 10 steps, stays in the mapping, and
its rows keep feeding the aggregation; no `HALTED` flag or exclusion exists
anywhere in the view. -/
theorem depth_bound_truncates_silently (db : Db) :
    ∀ r ∈ v_stable_municipality_mapping db, r.depth ≤ 10 := by
  intro r hr
  exact merger_chain_depth_le db r (mapping_row_mem_chain db r hr)

/-- C6 (amended): conflicting forward edges for the same old id that do not
form a simultaneous split are not reported and not excluded.  The recursion
follows every branch, and the final `GROUP BY` keeps the seed in the mapping
with one row chosen among the branches of maximal depth (the choice among
equally deep branches is left to SQLite's unspecified bare-column
semantics). -/
theorem conflicting_edges_kept_max_depth (db : Db) (b : Nat)
    (hb : b ∈ originalIds db) :
    ∃ r, r ∈ v_stable_municipality_mapping db ∧ r.original_bfs = b ∧
      r ∈ merger_chain db ∧
      ∀ x ∈ merger_chain db, x.original_bfs = b → x.depth ≤ r.depth := by
  obtain ⟨r, hpick⟩ := Option.ne_none_iff_exists'.mp
    ((Ne.intro (fun h => chain_filter_ne_nil db b hb ((pickMax_eq_none_iff _).mp h))))
  have hmem := pickMax_mem _ r hpick
  rw [List.mem_filter, beq_iff_eq] at hmem
  refine ⟨r, ?_, hmem.2, hmem.1, ?_⟩
  · rw [v_stable_municipality_mapping, List.mem_filterMap]
    exact ⟨b, hb, hpick⟩
  · intro x hx hxb
    refine pickMax_maximal _ r hpick x ?_
    rw [List.mem_filter, beq_iff_eq]
    exact ⟨hx, hxb⟩

/-- One row of the `original_sums` / `aggregated_sums` CTEs of
`verify_perfect_matching` (`create_analysis_views.py`, lines 275-292):
per-proposal totals of the yes and no columns. -/
structure PropSum where
  proposal_id : Nat
  ja : Nat
  nein : Nat
deriving DecidableEq

/-- The join `voting_results INNER JOIN proposals` restricted to
municipality rows, underlying `original_sums` (lines 275-284). -/
def resultProposalJoin (db : Db) : List (VotingResultRow × ProposalRow) :=
  db.voting_results.flatMap (fun vr =>
    if vr.geo_level = "municipality" then
      (db.proposals.filter (fun p => p.proposal_id == vr.proposal_id)).map
        (fun p => (vr, p))
    else [])

/-- The CTE `original_sums` (lines 275-284): per-proposal totals over the
original municipality-level rows. -/
def original_sums (db : Db) : List PropSum :=
  (((resultProposalJoin db).map (fun x => x.2.proposal_id)).dedup).map (fun pid =>
    { proposal_id := pid
      ja := (((resultProposalJoin db).filter (fun x => x.2.proposal_id == pid)).map
        (fun x => x.1.ja_stimmen_absolut)).sum
      nein := (((resultProposalJoin db).filter (fun x => x.2.proposal_id == pid)).map
        (fun x => x.1.nein_stimmen_absolut)).sum })

/-- The CTE `aggregated_sums` (lines 285-292): per-proposal totals over the
aggregated view. -/
def aggregated_sums (db : Db) : List PropSum :=
  (((v_voting_results_analysis db).map (fun row => row.proposal_id)).dedup).map
    (fun pid =>
      { proposal_id := pid
        ja := (((v_voting_results_analysis db).filter
            (fun row => row.proposal_id == pid)).map
          (fun row => row.ja_stimmen_absolut)).sum
        nein := (((v_voting_results_analysis db).filter
            (fun row => row.proposal_id == pid)).map
          (fun row => row.nein_stimmen_absolut)).sum })

/-- One output row of the mismatch query of `verify_perfect_matching`
(lines 293-306). -/
structure MismatchRow where
  proposal_id : Nat
  original_ja : Nat
  aggregated_ja : Nat
  original_nein : Nat
  aggregated_nein : Nat
  ja_diff : ℚ
  nein_diff : ℚ
deriving DecidableEq

/-- The output record of the mismatch query for one joined pair of
per-proposal sums (lines 293-300). -/
def mkMismatch (o a : PropSum) : MismatchRow :=
  { proposal_id := o.proposal_id
    original_ja := o.ja
    aggregated_ja := a.ja
    original_nein := o.nein
    aggregated_nein := a.nein
    ja_diff := |(o.ja : ℚ) - (a.ja : ℚ)|
    nein_diff := |(o.nein : ℚ) - (a.nein : ℚ)| }

/-- The inner join of the two sum CTEs on `proposal_id` with the absolute
difference columns (lines 293-302). -/
def mismatchJoin (db : Db) : List MismatchRow :=
  (original_sums db).flatMap (fun o =>
    ((aggregated_sums db).filter (fun a => a.proposal_id == o.proposal_id)).map
      (fun a => mkMismatch o a))

/-- Insertion step of `ORDER BY ja_diff DESC` (line 305). -/
def insertDesc (x : MismatchRow) : List MismatchRow → List MismatchRow
  | [] => [x]
  | y :: ys => if y.ja_diff < x.ja_diff then x :: y :: ys else y :: insertDesc x ys

/-- `ORDER BY ja_diff DESC` (line 305), as insertion sort. -/
def sortDesc : List MismatchRow → List MismatchRow
  | [] => []
  | x :: xs => insertDesc x (sortDesc xs)

/-- The mismatch list computed and logged by `verify_perfect_matching`
(lines 274-317): joined per-proposal totals whose yes or no difference
exceeds 0.1, sorted by descending yes-difference, limited to 10 rows.  The
function only logs these rows (a success line when the list is empty, one
warning per row otherwise) and returns nothing. -/
def verify_perfect_matching (db : Db) : List MismatchRow :=
  (sortDesc ((mismatchJoin db).filter (fun r =>
    decide ((1 / 10 : ℚ) < r.ja_diff) || decide ((1 / 10 : ℚ) < r.nein_diff)))).take 10

/-- The observable outcome of a `create_analysis_views.py` run (`main`,
lines 356-428): the created views, the logged mismatch list, and the exit
code.  `main` returns 0 whenever no exception escapes -- mismatches found by
`verify_perfect_matching` are logged as warnings and do not change the exit
code, and the views remain in place. -/
def create_analysis_views_run (db : Db) :
    List ChainRow × List AggRow × List MismatchRow × Nat :=
  (v_stable_municipality_mapping db, v_voting_results_analysis db,
    verify_perfect_matching db, 0)

theorem length_insertDesc (x : MismatchRow) (l : List MismatchRow) :
    (insertDesc x l).length = l.length + 1 := by
  induction l with
  | nil => rfl
  | cons y ys ih =>
      rw [insertDesc]
      by_cases h : y.ja_diff < x.ja_diff
      · rw [if_pos h]
        rfl
      · rw [if_neg h, List.length_cons, ih, List.length_cons]

theorem length_sortDesc (l : List MismatchRow) : (sortDesc l).length = l.length := by
  induction l with
  | nil => rfl
  | cons x xs ih => rw [sortDesc, length_insertDesc, ih, List.length_cons]

theorem sortDesc_eq_nil_iff (l : List MismatchRow) : sortDesc l = [] ↔ l = [] := by
  constructor
  · intro h
    have hlen := length_sortDesc l
    rw [h] at hlen
    exact List.length_eq_zero.mp hlen.symm
  · intro h
    rw [h]
    rfl

theorem nat_cast_diff_le_tenth (m n : Nat) : |(m : ℚ) - (n : ℚ)| ≤ 1 / 10 ↔ m = n := by
  constructor
  · intro h
    by_contra hne
    have hz : ((m : ℤ) - (n : ℤ)) ≠ 0 := sub_ne_zero.mpr (by exact_mod_cast hne)
    have h1 : (1 : ℤ) ≤ |(m : ℤ) - (n : ℤ)| := Int.one_le_abs (by omega)
    have h2 : ((1 : ℤ) : ℚ) ≤ ((|(m : ℤ) - (n : ℤ)| : ℤ) : ℚ) := by exact_mod_cast h1
    rw [Int.cast_abs, Int.cast_sub, Int.cast_one] at h2
    have : |(m : ℚ) - (n : ℚ)| ≤ 1 / 10 := h
    push_cast at h2
    linarith
  · intro h
    rw [h]
    simp

/-- C9 (amended): `verify_perfect_matching` detects exactly the proposals
whose joined yes/no totals differ (its 0.1 tolerance coincides with exact
integer equality on counts), but it only logs up to 10 of them as warnings:
the run still finishes with exit code 0 and the aggregated view stays
published unchanged -- no event is blocked and no degraded state exists. -/
theorem validator_only_logs_mismatches (db : Db) :
    (verify_perfect_matching db = [] ↔
      ∀ o ∈ original_sums db, ∀ a ∈ aggregated_sums db,
        o.proposal_id = a.proposal_id → o.ja = a.ja ∧ o.nein = a.nein)
    ∧ (create_analysis_views_run db).2.2.2 = 0 := by
  refine ⟨?_, rfl⟩
  rw [verify_perfect_matching]
  constructor
  · intro h o ho a ha hpid
    have hlen := congrArg List.length h
    rw [List.length_take] at hlen
    have hlen0 : (sortDesc ((mismatchJoin db).filter (fun r =>
        decide ((1 / 10 : ℚ) < r.ja_diff) ||
          decide ((1 / 10 : ℚ) < r.nein_diff)))).length = 0 := by
      simp only [List.length_nil] at hlen
      omega
    have hnil := (sortDesc_eq_nil_iff _).mp (List.length_eq_zero.mp hlen0)
    have hrow : mkMismatch o a ∈ mismatchJoin db := by
      rw [mismatchJoin, List.mem_flatMap]
      refine ⟨o, ho, List.mem_map.mpr ⟨a, ?_, rfl⟩⟩
      rw [List.mem_filter, beq_iff_eq]
      exact ⟨ha, hpid.symm⟩
    have hcond := List.filter_eq_nil_iff.mp hnil _ hrow
    simp only [mkMismatch, Bool.or_eq_true, decide_eq_true_eq, not_or, not_lt] at hcond
    exact ⟨(nat_cast_diff_le_tenth o.ja a.ja).mp hcond.1,
      (nat_cast_diff_le_tenth o.nein a.nein).mp hcond.2⟩
  · intro hall
    have hnil : (mismatchJoin db).filter (fun r =>
        decide ((1 / 10 : ℚ) < r.ja_diff) ||
          decide ((1 / 10 : ℚ) < r.nein_diff)) = [] := by
      rw [List.filter_eq_nil_iff]
      intro r hr
      rw [mismatchJoin, List.mem_flatMap] at hr
      obtain ⟨o, ho, hr⟩ := hr
      rw [List.mem_map] at hr
      obtain ⟨a, haf, rfl⟩ := hr
      rw [List.mem_filter, beq_iff_eq] at haf
      obtain ⟨ha, hpid⟩ := haf
      obtain ⟨hja, hnein⟩ := hall o ho a ha hpid.symm
      simp [mkMismatch, hja, hnein]
    rw [hnil]
    rfl

/-- One parsed row of the mutation Excel sheet as read by
`import_municipal_changes.py` (lines 35-61): every cell is text or missing
(pandas NaN, modeled as `none`). -/
structure RawChange where
  mutation_number : Option String
  old_canton : Option String
  old_district_number : Option String
  old_bfs_number : Option String
  old_name : Option String
  new_canton : Option String
  new_district_number : Option String
  new_bfs_number : Option String
  new_name : Option String
  mutation_date : Option String
deriving DecidableEq

/-- Success of `pd.to_numeric` on a BFS cell; BFS numbers are plain digit
strings, so the parse succeeds exactly on nonempty all-digit text. -/
def isNumericCell (s : String) : Bool :=
  !s.data.isEmpty && s.data.all (fun c => c.isDigit)

/-- A present cell whose value fails numeric parsing, the condition
`pd.to_numeric(...).isna() & notna()` of lines 70-71. -/
def badCell : Option String → Bool
  | some s => !(isNumericCell s)
  | none => false

/-- Report of `read_excel_with_validation` (lines 35-83): it logs a warning
with the number of rows whose BFS cells fail numeric parsing (lines 69-76)
and returns the frame otherwise unchanged -- no row is dropped or
altered. -/
structure ReadReport where
  rows : List RawChange
  non_numeric_old : Nat
  non_numeric_new : Nat
deriving DecidableEq

def read_excel_with_validation (rows : List RawChange) : ReadReport :=
  { rows := rows
    non_numeric_old := (rows.filter (fun r => badCell r.old_bfs_number)).length
    non_numeric_new := (rows.filter (fun r => badCell r.new_bfs_number)).length }

/-- pandas elementwise `==`: missing values compare unequal to
everything. -/
def pdEq : Option String → Option String → Bool
  | some a, some b => a == b
  | _, _ => false

/-- pandas elementwise `!=`: the negation of `pdEq`, so a missing value is
unequal to everything including another missing value. -/
def pdNe (a b : Option String) : Bool := !(pdEq a b)

/-- Both cells present and textually different -- the guarded comparisons of
`get_change_type` (lines 89-108). -/
def pdBothNe : Option String → Option String → Bool
  | some a, some b => a != b
  | _, _ => false

/-- `get_change_type` (lines 89-109). -/
def get_change_type (r : RawChange) : String :=
  let cs :=
    (if pdBothNe r.old_bfs_number r.new_bfs_number then ["bfs_change"] else []) ++
    (if pdBothNe r.old_name r.new_name then ["name_change"] else []) ++
    (if pdBothNe r.old_canton r.new_canton then ["canton_change"] else []) ++
    (if pdBothNe r.old_district_number r.new_district_number then
      ["district_change"] else [])
  if cs.isEmpty then "unknown" else String.intercalate "|" cs

/-- Size of the groupby group of a row under a key column (lines 114-120):
pandas `groupby` drops missing keys, and `isin` of a missing value is
false, so a row with a missing key has count 0. -/
def keyCount (rows : List RawChange) (key : RawChange → Option String)
    (r : RawChange) : Nat :=
  match key r with
  | some v => rows.countP (fun x => key x == some v)
  | none => 0

/-- A mutation record together with the classification flags computed by
`analyze_changes`. -/
structure ClassifiedChange where
  raw : RawChange
  mutation_type : String
  is_merger : Bool
  is_split : Bool
  is_rename : Bool
  is_reassignment : Bool
deriving DecidableEq

/-- The classified form of one row in the context of the whole frame
(lines 111-124). -/
def classify (rows : List RawChange) (r : RawChange) : ClassifiedChange :=
  { raw := r
    mutation_type := get_change_type r
    is_merger := decide (1 < keyCount rows (fun x => x.new_bfs_number) r)
    is_split := decide (1 < keyCount rows (fun x => x.old_bfs_number) r)
    is_rename := pdEq r.old_bfs_number r.new_bfs_number &&
      pdNe r.old_name r.new_name
    is_reassignment := pdNe r.old_canton r.new_canton ||
      pdNe r.old_district_number r.new_district_number }

/-- `analyze_changes` (lines 85-139): every row, well-formed or not, gets a
mutation type and merger/split/rename/reassignment flags; the grouping that
drives the merger and split flags runs over all rows. -/
def analyze_changes (rows : List RawChange) : List ClassifiedChange :=
  rows.map (classify rows)

/-- `import_to_database` (lines 186-239): reformats parsed dates, turns NaN
into NULL and inserts every classified row inside a per-row try/except;
inserting text and NULL values into the TEXT/BOOLEAN schema cannot raise,
so all rows are inserted, with success count equal to the row count and
error count 0.  The inserted rows are the `municipal_changes` table, the
source of the mutation graph. -/
def import_to_database (cs : List ClassifiedChange) :
    List ClassifiedChange × Nat × Nat :=
  (cs, cs.length, 0)

/-- C10 (amended): a mutation record whose id fails numeric parsing is
reported in a warning count but retained: `read_excel_with_validation`
returns the change set unchanged, and every record -- malformed ids
included -- is classified and inserted into `municipal_changes`, where it
participates in the mutation graph. -/
theorem malformed_records_retained (rows : List RawChange) (r : RawChange)
    (hr : r ∈ rows) :
    (read_excel_with_validation rows).rows = rows ∧
      classify rows r ∈ (import_to_database (analyze_changes rows)).1 :=
  ⟨rfl, List.mem_map_of_mem (classify rows) hr⟩

/-- Example database: entity 1001 first appears in a 2005 event and merges
into 2002 in 2010, which merges into 3003 in 2015 (the end-to-end scenario
of the repository documentation). -/
def exDbChain : Db :=
  { votings := [⟨1, 20050605⟩]
    proposals := [⟨1, 1, "P", "P", "P", true⟩]
    voting_results := [⟨1, 1, "municipality", 1001, "OldTown", 90, 10, 100, 110, 200⟩]
    municipal_changes := [⟨1001, "OldTown", 2002, "NewTown", 20100101⟩,
      ⟨2002, "NewTown", 3003, "Capital", 20150101⟩] }

/-- Example database whose seed 7 splits simultaneously into 8 and 9. -/
def exDbSplit : Db :=
  { votings := [⟨1, 20050605⟩]
    proposals := [⟨1, 1, "P", "P", "P", true⟩]
    voting_results := [⟨1, 1, "municipality", 7, "Splitville", 10, 5, 15, 16, 30⟩]
    municipal_changes := [⟨7, "Splitville", 8, "North", 20100101⟩,
      ⟨7, "Splitville", 9, "South", 20100101⟩] }

/-- Example database with a synthetic mutation cycle 20 -> 21 -> 20. -/
def exDbCycle : Db :=
  { votings := [⟨1, 20050605⟩]
    proposals := [⟨1, 1, "P", "P", "P", true⟩]
    voting_results := [⟨1, 1, "municipality", 20, "Cycleton", 1, 1, 2, 2, 4⟩]
    municipal_changes := [⟨20, "Cycleton", 21, "Loopburg", 20100101⟩,
      ⟨21, "Loopburg", 20, "Cycleton", 20110101⟩] }

/-- Example database where entities 1 and 2 merge into 3: entity 1 has 90
yes of 100 valid, entity 2 has 10 yes of 900 valid. -/
def exDbAB : Db :=
  { votings := [⟨1, 20050605⟩]
    proposals := [⟨1, 1, "P", "P", "P", true⟩]
    voting_results := [⟨1, 1, "municipality", 1, "Avil", 90, 10, 100, 120, 150⟩,
      ⟨1, 1, "municipality", 2, "Bburg", 10, 890, 900, 950, 1200⟩]
    municipal_changes := [⟨1, "Avil", 3, "Cstadt", 20100101⟩,
      ⟨2, "Bburg", 3, "Cstadt", 20100101⟩] }

/-- Example database with a mutation chain of eleven structural edges
100 -> 101 -> ... -> 111 starting after the seed appeared. -/
def exDbDeep : Db :=
  { votings := [⟨1, 20050605⟩]
    proposals := [⟨1, 1, "P", "P", "P", true⟩]
    voting_results := [⟨1, 1, "municipality", 100, "Start", 7, 3, 10, 11, 20⟩]
    municipal_changes := [⟨100, "Start", 101, "M101", 20100101⟩,
      ⟨101, "M101", 102, "M102", 20100102⟩,
      ⟨102, "M102", 103, "M103", 20100103⟩,
      ⟨103, "M103", 104, "M104", 20100104⟩,
      ⟨104, "M104", 105, "M105", 20100105⟩,
      ⟨105, "M105", 106, "M106", 20100106⟩,
      ⟨106, "M106", 107, "M107", 20100107⟩,
      ⟨107, "M107", 108, "M108", 20100108⟩,
      ⟨108, "M108", 109, "M109", 20100109⟩,
      ⟨109, "M109", 110, "M110", 20100110⟩,
      ⟨110, "M110", 111, "M111", 20100111⟩] }

/-- Example database where seed 5 has two conflicting forward edges on
different dates (5 -> 6 in 2010 and 5 -> 7 in 2012), which is not a
simultaneous split. -/
def exDbConflict : Db :=
  { votings := [⟨1, 20050605⟩]
    proposals := [⟨1, 1, "P", "P", "P", true⟩]
    voting_results := [⟨1, 1, "municipality", 5, "Forktown", 4, 6, 10, 10, 12⟩]
    municipal_changes := [⟨5, "Forktown", 6, "Northfork", 20100101⟩,
      ⟨5, "Forktown", 7, "Southfork", 20120101⟩] }

/-- Example database with a conservation violation: the result row of
municipality 60 references voting 9, which does not exist, so 60 is never
seeded into the mapping and its counts are dropped by the aggregated view
while still counted by the original-side totals. -/
def exDbMismatch : Db :=
  { votings := [⟨1, 20050605⟩]
    proposals := [⟨1, 1, "P", "P", "P", true⟩]
    voting_results := [⟨1, 1, "municipality", 50, "Goodville", 5, 2, 7, 7, 9⟩,
      ⟨9, 1, "municipality", 60, "Orphanage", 3, 1, 4, 4, 6⟩]
    municipal_changes := [] }

theorem aggregation_conserves_totals_witness :
    (((v_voting_results_analysis exDbChain).filter
        (fun row => row.proposal_id == 1)).map (aggField CountField.ja)).sum
      = ((exDbChain.voting_results.filter (fun vr =>
          vr.geo_level == "municipality" && vr.proposal_id == 1)).map
          (countField CountField.ja)).sum :=
  aggregation_conserves_totals exDbChain (by decide) (by decide) (by decide)
    (by decide) (by decide) 1 CountField.ja

theorem mapping_total_function_witness :
    ((v_stable_municipality_mapping exDbChain).filter
      (fun r => r.original_bfs == 1001)).length = 1 :=
  mapping_total_function exDbChain 1001 (by decide) (by decide)

/-- The depth-1 chain row of seed 1001 in `exDbChain`. -/
def exStepRow : ChainRow := ⟨1001, "OldTown", 2002, "NewTown", 20050605, 1⟩

/-- The base chain row of the split seed 7 in `exDbSplit`. -/
def exSplitBase : ChainRow := ⟨7, "Splitville", 7, "Splitville", 20050605, 0⟩

theorem split_origin_terminal_witness :
    (∃ r ∈ chainLevel exDbChain 0,
      r.analysis_bfs ∉ true_splits exDbChain.municipal_changes ∧
      exStepRow.original_bfs = r.original_bfs ∧ exStepRow.depth = r.depth + 1 ∧
      ∃ mch ∈ exDbChain.municipal_changes, mch.old_bfs_number = r.analysis_bfs ∧
        mch.old_bfs_number ≠ mch.new_bfs_number ∧
        r.first_appearance ≤ mch.mutation_date ∧
        exStepRow.analysis_bfs = mch.new_bfs_number) ∧
    (exSplitBase.depth = 0 ∧ exSplitBase.analysis_bfs = 7) :=
  ⟨(split_origin_terminal exDbChain).1 0 exStepRow (by decide),
   (split_origin_terminal exDbSplit).2 7 (by decide) exSplitBase (by decide) rfl⟩

/-- The base chain row of seed 20 in `exDbCycle`. -/
def exCycleBase : ChainRow := ⟨20, "Cycleton", 20, "Cycleton", 20050605, 0⟩

theorem resolver_halts_within_bound_witness :
    exCycleBase.depth ≤ 10 ∧ chainLevel exDbCycle 11 = [] :=
  ⟨(resolver_halts_within_bound exDbCycle).1 exCycleBase (by decide),
   (resolver_halts_within_bound exDbCycle).2 11 (by norm_num)⟩

/-- The single aggregated row of `exDbAB`: entities 1 and 2 merged into 3,
yes 90 + 10 = 100 of valid 100 + 900 = 1000, yes-share 10.00. -/
def exAggRowAB : AggRow :=
  { voting_id := 1
    voting_date := 20050605
    proposal_id := 1
    title_de := "P"
    title_fr := "P"
    title_it := "P"
    angenommen := true
    municipality_id := 3
    municipality_name := "Cstadt"
    ja_stimmen_absolut := 100
    nein_stimmen_absolut := 900
    gueltige_stimmen := 1000
    eingelegte_stimmzettel := 1070
    anzahl_stimmberechtigte := 1350
    ja_prozent := some 10
    stimmbeteiligung := some (3963 / 50)
    source_municipality_count := 2 }

/-- The single grouping key of `exDbAB`. -/
def exKeyAB : AggKey := ⟨1, 20050605, 1, "P", "P", "P", true, 3, "Cstadt"⟩

theorem exDbAB_view_eval : v_voting_results_analysis exDbAB = [exAggRowAB] := by
  have hkey : ((analysisJoin exDbAB).map aggKey).dedup = [exKeyAB] := by decide
  have hg : (analysisJoin exDbAB).filter (fun x => aggKey x == exKeyAB)
      = [⟨⟨1, 20050605⟩, ⟨1, 1, "P", "P", "P", true⟩,
          ⟨1, 1, "municipality", 1, "Avil", 90, 10, 100, 120, 150⟩,
          ⟨1, "Avil", 3, "Cstadt", 20050605, 1⟩⟩,
         ⟨⟨1, 20050605⟩, ⟨1, 1, "P", "P", "P", true⟩,
          ⟨1, 1, "municipality", 2, "Bburg", 10, 890, 900, 950, 1200⟩,
          ⟨2, "Bburg", 3, "Cstadt", 20050605, 1⟩⟩] := by decide
  rw [v_voting_results_analysis, hkey, List.map_singleton, hg]
  simp only [mkAggRow, sumBy, exAggRowAB, exKeyAB, List.map_cons, List.map_nil,
    List.sum_cons, List.sum_nil, List.dedup_cons_of_not_mem, AggRow.mk.injEq]
  norm_num [round2, round_eq]

theorem ja_prozent_weighted_witness :
    exAggRowAB ∈ v_voting_results_analysis exDbAB ∧
      0 < exAggRowAB.gueltige_stimmen ∧
      exAggRowAB.ja_prozent = some (round2 (100 * (exAggRowAB.ja_stimmen_absolut : ℚ) /
        (exAggRowAB.gueltige_stimmen : ℚ))) ∧
      exAggRowAB.ja_prozent = some 10 ∧ exAggRowAB.ja_prozent ≠ some (4556 / 100) := by
  have hmem : exAggRowAB ∈ v_voting_results_analysis exDbAB := by
    rw [exDbAB_view_eval]
    exact List.mem_singleton_self _
  refine ⟨hmem, by decide, ja_prozent_weighted exDbAB exAggRowAB hmem (by decide),
    rfl, ?_⟩
  show some (10 : ℚ) ≠ some (4556 / 100)
  rw [Ne, Option.some_inj]
  norm_num

theorem depth_bound_counterexample :
    v_stable_municipality_mapping exDbDeep
        = [⟨100, "Start", 110, "M110", 20050605, 10⟩] ∧
      (v_voting_results_analysis exDbDeep).map
        (fun row => (row.municipality_id, row.ja_stimmen_absolut)) = [(110, 7)] := by
  decide

theorem depth_bound_truncates_silently_witness :
    (⟨100, "Start", 110, "M110", 20050605, 10⟩ : ChainRow)
        ∈ v_stable_municipality_mapping exDbDeep ∧
      (⟨100, "Start", 110, "M110", 20050605, 10⟩ : ChainRow).depth ≤ 10 :=
  ⟨by decide, depth_bound_truncates_silently exDbDeep _ (by decide)⟩

theorem conflicting_edges_counterexample :
    5 ∉ true_splits exDbConflict.municipal_changes ∧
      (∃ mc1 ∈ exDbConflict.municipal_changes, ∃ mc2 ∈ exDbConflict.municipal_changes,
        mc1.old_bfs_number = 5 ∧ mc2.old_bfs_number = 5 ∧
        mc1.old_bfs_number ≠ mc1.new_bfs_number ∧
        mc2.old_bfs_number ≠ mc2.new_bfs_number ∧
        mc1.new_bfs_number ≠ mc2.new_bfs_number ∧
        mc1.mutation_date ≠ mc2.mutation_date) ∧
      v_stable_municipality_mapping exDbConflict
        = [⟨5, "Forktown", 6, "Northfork", 20050605, 1⟩] := by
  decide

theorem conflicting_edges_kept_max_depth_witness :
    5 ∈ originalIds exDbConflict ∧
      ∃ r, r ∈ v_stable_municipality_mapping exDbConflict ∧ r.original_bfs = 5 ∧
        r ∈ merger_chain exDbConflict ∧
        ∀ x ∈ merger_chain exDbConflict, x.original_bfs = 5 → x.depth ≤ r.depth :=
  ⟨by decide, conflicting_edges_kept_max_depth exDbConflict 5 (by decide)⟩

theorem validator_counterexample :
    verify_perfect_matching exDbMismatch ≠ [] ∧
      (create_analysis_views_run exDbMismatch).2.2.2 = 0 ∧
      (v_voting_results_analysis exDbMismatch).map
        (fun row => (row.proposal_id, row.municipality_id, row.ja_stimmen_absolut))
        = [(1, 50, 5)] := by
  refine ⟨?_, rfl, by decide⟩
  have ho : original_sums exDbMismatch = [⟨1, 8, 3⟩] := by decide
  have ha : aggregated_sums exDbMismatch = [⟨1, 5, 2⟩] := by decide
  have hjoin : mismatchJoin exDbMismatch
      = [mkMismatch ⟨1, 8, 3⟩ ⟨1, 5, 2⟩] := by
    rw [mismatchJoin, ho, ha]
    rfl
  rw [verify_perfect_matching, hjoin]
  have hcond : (decide ((1 / 10 : ℚ) < (mkMismatch ⟨1, 8, 3⟩ ⟨1, 5, 2⟩).ja_diff) ||
      decide ((1 / 10 : ℚ) < (mkMismatch ⟨1, 8, 3⟩ ⟨1, 5, 2⟩).nein_diff)) = true := by
    have h1 : (mkMismatch (⟨1, 8, 3⟩ : PropSum) (⟨1, 5, 2⟩ : PropSum)).ja_diff = 3 := by
      show |(8 : ℚ) - (5 : ℚ)| = 3
      norm_num
    rw [Bool.or_eq_true, decide_eq_true_eq, h1]
    left
    norm_num
  rw [List.filter_cons, if_pos hcond, List.filter_nil]
  simp [sortDesc, insertDesc]

/-- A mutation record with a non-numeric predecessor id. -/
def exRowBad1 : RawChange :=
  ⟨some "1", some "ZH", some "101", some "ABC", some "Alpha", some "ZH",
    some "101", some "100", some "Beta", some "20100101"⟩

/-- A second record sharing the same non-numeric predecessor id. -/
def exRowBad2 : RawChange :=
  ⟨some "2", some "ZH", some "101", some "ABC", some "Alpha", some "ZH",
    some "102", some "200", some "Gamma", some "20100101"⟩

theorem malformed_record_counterexample :
    (read_excel_with_validation [exRowBad1, exRowBad2]).non_numeric_old = 2 ∧
      (read_excel_with_validation [exRowBad1, exRowBad2]).rows
        = [exRowBad1, exRowBad2] ∧
      (analyze_changes [exRowBad1, exRowBad2]).map (fun c => c.is_split)
        = [true, true] ∧
      (import_to_database (analyze_changes [exRowBad1, exRowBad2])).1
        = analyze_changes [exRowBad1, exRowBad2] ∧
      (import_to_database (analyze_changes [exRowBad1, exRowBad2])).2 = (2, 0) := by
  decide

theorem malformed_records_retained_witness :
    exRowBad1 ∈ [exRowBad1, exRowBad2] ∧
      ((read_excel_with_validation [exRowBad1, exRowBad2]).rows
          = [exRowBad1, exRowBad2] ∧
        classify [exRowBad1, exRowBad2] exRowBad1
          ∈ (import_to_database (analyze_changes [exRowBad1, exRowBad2])).1) :=
  ⟨by decide, malformed_records_retained [exRowBad1, exRowBad2] exRowBad1 (by decide)⟩
